import Mathlib

/-!
Shallow embedding of `scripts/decode-ascii-qr.py` (ZeppNightscout).

The script has three stages:
* `extract_qr_ascii` scans the input text (split on newlines) and collects
  the ASCII QR block;
* `ascii_qr_to_image` rasterizes the block into a binary image with a
  quiet zone (the script then doubles the image with a nearest-neighbour
  resize and saves it);
* `main` wires the stages together, treating the pyzbar decoder as an
  external collaborator.

The embedding works on the list of lines (each a `List Char`), i.e. on the
result of Python's `text.split('\n')`; the image is modelled as its
dimensions together with its black-pixel predicate.
-/

namespace DecodeAsciiQr

/-- The lower half block character `▄` (U+2584); runs of it form the border
marker recognised by the extractor. -/
def markerChar : Char := '▄'

/-- The pattern `'▄' * 10` from the source: ten consecutive lower half
blocks. -/
def markerChars : List Char := List.replicate 10 markerChar

/-- Prefix test: `beginsWith pat l` holds when `pat` is an initial segment of `l`.  Models Python's
`line.startswith(pattern)` on character lists. -/
def beginsWith : List Char → List Char → Bool
  | [], _ => true
  | _ :: _, [] => false
  | p :: ps, c :: cs => p == c && beginsWith ps cs

/-- Border-marker test `line.startswith('▄' * 10)` from the source. -/
def isMarkerLine (l : List Char) : Bool := beginsWith markerChars l

/-- The ASCII whitespace characters stripped by Python's `str.strip()`
(space, tab, newline, carriage return, vertical tab, form feed). -/
def isPyWS (c : Char) : Bool :=
  c == ' ' || c == '\t' || c == '\n' || c == '\r' || c == '\x0b' || c == '\x0c'

/-- Truthiness of `line.strip()`: the line has at least one non-whitespace
character. -/
def hasNonWS (l : List Char) : Bool := l.any (fun c => !(isPyWS c))

/-- Membership in the set `['█', '▀', '▄', ' ']` used by the source's
`any(c in line for c in ['█', '▀', '▄', ' '])` test. -/
def qrAlphabet (c : Char) : Bool :=
  c == '█' || c == '▀' || c == '▄' || c == ' '

/-- Test `any(c in line for c in ['█', '▀', '▄', ' '])` from the source: the line contains at
least one of the four characters. -/
def containsQrChar (l : List Char) : Bool := l.any qrAlphabet

/-- The extraction loop of `extract_qr_ascii`, with the loop state made
explicit: `in_qr`, `start_pattern_found`, and the accumulator `qr_lines`.
A `break` in the source is a branch that returns the accumulator. -/
def extractGo : List (List Char) → Bool → Bool → List (List Char) → List (List Char)
  | [], _, _, acc => acc
  | line :: rest, in_qr, spf, acc =>
    if !spf && isMarkerLine line then
      extractGo rest true true (acc ++ [line])
    else if in_qr then
      if isMarkerLine line then
        acc ++ [line]
      else if hasNonWS line && containsQrChar line then
        extractGo rest in_qr spf (acc ++ [line])
      else if !(hasNonWS line) then
        acc
      else
        extractGo rest in_qr spf acc
    else
      extractGo rest in_qr spf acc

/-- Embedding of `extract_qr_ascii` from the source, applied to the list of input lines
(the source first splits the input text on `'\n'`). -/
def extract_qr_ascii (lines : List (List Char)) : List (List Char) :=
  extractGo lines false false []

/-- Constant `module_size = 4` from `ascii_qr_to_image`. -/
def module_size : Nat := 4

/-- Constant `quiet_zone = 4 * module_size` from `ascii_qr_to_image`. -/
def quiet_zone : Nat := 4 * module_size

/-- Maximum line length `max(len(line) for line in qr_lines)`; the source only evaluates it on a
non-empty list, where the fold below agrees with Python's `max`. -/
def maxWidth (qr_lines : List (List Char)) : Nat :=
  (qr_lines.map List.length).foldr Nat.max 0

/-- The character-to-pixel table of `ascii_qr_to_image`: each character
yields `(top_black, bottom_black)`. -/
def charPixels (c : Char) : Bool × Bool :=
  if c == '█' then (true, true)
  else if c == '▀' then (true, false)
  else if c == '▄' then (false, true)
  else (false, false)

/-- The black-pixel predicate of the image built by the putpixel loops of
`ascii_qr_to_image`: pixel `(px, py)` is black iff some character of some
line paints it (top or bottom module square, offset by the quiet zone). -/
def ascii_black (qr_lines : List (List Char)) (px py : Nat) : Bool :=
  (List.range qr_lines.length).any fun y =>
    let line := qr_lines.getD y []
    (List.range line.length).any fun x =>
      let c := line.getD x ' '
      let x_start := quiet_zone + x * module_size
      let y_top_start := quiet_zone + y * 2 * module_size
      let y_bottom_start := quiet_zone + (y * 2 + 1) * module_size
      ((charPixels c).1 && decide (x_start ≤ px ∧ px < x_start + module_size ∧
          y_top_start ≤ py ∧ py < y_top_start + module_size)) ||
      ((charPixels c).2 && decide (x_start ≤ px ∧ px < x_start + module_size ∧
          y_bottom_start ≤ py ∧ py < y_bottom_start + module_size))

/-- A binary raster image: dimensions plus the black-pixel predicate
(`true` = black; the source's mode-`'1'` image stores 0 for black). -/
structure Image where
  width : Nat
  height : Nat
  black : Nat → Nat → Bool

/-- Embedding of `ascii_qr_to_image` from the source: `None` on an empty block, otherwise
the rasterized image (before the final 2x nearest-neighbour resize). -/
def ascii_qr_to_image (qr_lines : List (List Char)) : Option Image :=
  if qr_lines.isEmpty then none
  else
    let max_width := maxWidth qr_lines
    let qr_width := max_width * module_size
    let qr_height := qr_lines.length * 2 * module_size
    let img_width := qr_width + 2 * quiet_zone
    let img_height := qr_height + 2 * quiet_zone
    some ⟨img_width, img_height, fun px py => ascii_black qr_lines px py⟩

/-- The `img.resize((img_width * 2, img_height * 2), NEAREST)` step: the
saved image doubles every pixel. -/
def resizedImage (img : Image) : Image :=
  ⟨img.width * 2, img.height * 2, fun px py => img.black (px / 2) (py / 2)⟩

/-- Result of one process run: exit code, stdout lines, stderr lines. -/
structure ProcResult where
  exitCode : Nat
  stdout : List String
  stderr : List String
deriving DecidableEq

/-- Message `f"Found QR code with ... lines"` printed by `main`. -/
def foundMsg (n : Nat) : String := s!"Found QR code with {n} lines"

/-- Message `f"Converted to image: ..."` with the default output path. -/
def convertedMsg : String := "Converted to image: qr_temp.png"

/-- Embedding of `main` from the source, over the input lines.  The external pyzbar
decoder (`decode_qr_image`) is an opaque collaborator, modelled by the
parameter `decodeResult` (`some url` when it decodes a payload, `none`
when it finds nothing). -/
def main (lines : List (List Char)) (decodeResult : Option String) : ProcResult :=
  let qr_lines := extract_qr_ascii lines
  if qr_lines.isEmpty then
    ⟨1, [], ["No QR code found in input"]⟩
  else
    match ascii_qr_to_image qr_lines with
    | none => ⟨1, [], [foundMsg qr_lines.length, "Failed to convert QR to image"]⟩
    | some _ =>
      match decodeResult with
      | some url => ⟨0, [url], [foundMsg qr_lines.length, convertedMsg]⟩
      | none =>
          ⟨1, [], [foundMsg qr_lines.length, convertedMsg, "Failed to decode QR code"]⟩

/-- Invariant of the lines collected while inside the block (everything
after the opening marker line): every line but the last is a non-marker
line passing the append test, and the last is either a marker line (break
on the bottom border) or again a passing non-marker line. -/
def chainGood : List (List Char) → Bool
  | [] => true
  | [l] => isMarkerLine l || (hasNonWS l && containsQrChar l)
  | l :: l2 :: rest =>
    (!(isMarkerLine l) && (hasNonWS l && containsQrChar l)) && chainGood (l2 :: rest)

/-- A border-marker line is never whitespace-only: it starts with `▄`. -/
theorem marker_hasNonWS (l : List Char) (h : isMarkerLine l = true) :
    hasNonWS l = true := by
  cases l with
  | nil => exact absurd h (by decide)
  | cons c cs =>
    have h2 : beginsWith (markerChar :: List.replicate 9 markerChar) (c :: cs) = true := h
    simp only [beginsWith, Bool.and_eq_true, beq_iff_eq] at h2
    simp only [hasNonWS, List.any_cons, Bool.or_eq_true]
    left
    rw [← h2.1]
    decide

/-- Outside the block (before the first marker): a marker line is appended
and the state flips to inside. -/
theorem extractGo_start (line : List Char) (rest acc : List (List Char))
    (hm : isMarkerLine line = true) :
    extractGo (line :: rest) false false acc = extractGo rest true true (acc ++ [line]) := by
  simp [extractGo, hm]

/-- Outside the block: a non-marker line is skipped. -/
theorem extractGo_out_skip (line : List Char) (rest acc : List (List Char))
    (hm : isMarkerLine line = false) :
    extractGo (line :: rest) false false acc = extractGo rest false false acc := by
  simp [extractGo, hm]

/-- Inside the block: a second marker line is appended and the loop breaks. -/
theorem extractGo_in_marker (line : List Char) (rest acc : List (List Char))
    (hm : isMarkerLine line = true) :
    extractGo (line :: rest) true true acc = acc ++ [line] := by
  simp [extractGo, hm]

/-- Inside the block: a non-marker line passing the
`line.strip() and any(...)` test is appended and the loop continues. -/
theorem extractGo_in_append (line : List Char) (rest acc : List (List Char))
    (hm : isMarkerLine line = false)
    (hg : (hasNonWS line && containsQrChar line) = true) :
    extractGo (line :: rest) true true acc = extractGo rest true true (acc ++ [line]) := by
  simp [extractGo, hm, hg]

/-- Inside the block: a whitespace-only line breaks the loop. -/
theorem extractGo_in_blank (line : List Char) (rest acc : List (List Char))
    (hw : hasNonWS line = false) :
    extractGo (line :: rest) true true acc = acc := by
  have hm : isMarkerLine line = false := by
    cases hmk : isMarkerLine line
    · rfl
    · rw [marker_hasNonWS line hmk] at hw; exact absurd hw (by decide)
  simp [extractGo, hm, hw]

/-- Inside the block: a non-blank line with none of the four QR characters
is skipped and the loop continues (it does not break). -/
theorem extractGo_in_skip (line : List Char) (rest acc : List (List Char))
    (hm : isMarkerLine line = false) (hw : hasNonWS line = true)
    (hc : containsQrChar line = false) :
    extractGo (line :: rest) true true acc = extractGo rest true true acc := by
  simp [extractGo, hm, hw, hc]

/-- Inside the block, the accumulator only prefixes the result. -/
theorem extractGo_tt_append (ls : List (List Char)) :
    ∀ acc, extractGo ls true true acc = acc ++ extractGo ls true true [] := by
  induction ls with
  | nil => intro acc; simp [extractGo]
  | cons line rest ih =>
    intro acc
    by_cases hm : isMarkerLine line = true
    · rw [extractGo_in_marker line rest acc hm, extractGo_in_marker line rest [] hm]
      simp
    · replace hm : isMarkerLine line = false := by simpa using hm
      by_cases hw : hasNonWS line = true
      · by_cases hg : (hasNonWS line && containsQrChar line) = true
        · rw [extractGo_in_append line rest acc hm hg, extractGo_in_append line rest [] hm hg,
            ih (acc ++ [line]), ih ([] ++ [line])]
          simp
        · have hc : containsQrChar line = false := by
            cases hcc : containsQrChar line
            · rfl
            · rw [hw, hcc] at hg; exact absurd rfl hg
          rw [extractGo_in_skip line rest acc hm hw hc, extractGo_in_skip line rest [] hm hw hc]
          exact ih acc
      · replace hw : hasNonWS line = false := by simpa using hw
        rw [extractGo_in_blank line rest acc hw, extractGo_in_blank line rest [] hw]
        simp

/-- The lines collected from the inside state always satisfy `chainGood`. -/
theorem extractGo_tt_chainGood (ls : List (List Char)) :
    chainGood (extractGo ls true true []) = true := by
  induction ls with
  | nil => simp [extractGo, chainGood]
  | cons line rest ih =>
    by_cases hm : isMarkerLine line = true
    · rw [extractGo_in_marker line rest [] hm]
      simp [chainGood, hm]
    · replace hm : isMarkerLine line = false := by simpa using hm
      by_cases hw : hasNonWS line = true
      · by_cases hg : (hasNonWS line && containsQrChar line) = true
        · rw [extractGo_in_append line rest [] hm hg, extractGo_tt_append rest ([] ++ [line])]
          cases hE : extractGo rest true true [] with
          | nil => simp [chainGood, hm, hg]
          | cons e es =>
            have h2 := ih
            rw [hE] at h2
            simp only [List.nil_append, List.singleton_append, chainGood, Bool.and_eq_true]
            refine ⟨⟨?_, ?_⟩, h2⟩
            · simp [hm]
            · simpa using hg
        · have hc : containsQrChar line = false := by
            cases hcc : containsQrChar line
            · rfl
            · rw [hw, hcc] at hg; exact absurd rfl hg
          rw [extractGo_in_skip line rest [] hm hw hc]
          exact ih
      · replace hw : hasNonWS line = false := by simpa using hw
        rw [extractGo_in_blank line rest [] hw]
        simp [chainGood]

/-- Replaying the inside state on a `chainGood` list of lines collects all
of them again. -/
theorem chainGood_replay (ls : List (List Char)) :
    ∀ acc, chainGood ls = true → extractGo ls true true acc = acc ++ ls := by
  induction ls with
  | nil => intro acc _; simp [extractGo]
  | cons line rest ih =>
    intro acc hcg
    cases rest with
    | nil =>
      by_cases hm : isMarkerLine line = true
      · exact extractGo_in_marker line [] acc hm
      · replace hm : isMarkerLine line = false := by simpa using hm
        have hg : (hasNonWS line && containsQrChar line) = true := by
          simp only [chainGood, hm, Bool.false_or] at hcg
          exact hcg
        rw [extractGo_in_append line [] acc hm hg]
        simp [extractGo]
    | cons l2 rs =>
      simp only [chainGood, Bool.and_eq_true, Bool.not_eq_true'] at hcg
      obtain ⟨⟨hm, hg⟩, hrest⟩ := hcg
      rw [extractGo_in_append line (l2 :: rs) acc hm (by simp [hg.1, hg.2]),
        ih (acc ++ [line]) (by simp [chainGood, hrest])]
      simp

/-- Shape of every extraction result: either empty, or an opening marker
line followed by a `chainGood` run. -/
theorem extract_shape (lines : List (List Char)) :
    extract_qr_ascii lines = [] ∨
    ∃ first tail, isMarkerLine first = true ∧ chainGood tail = true ∧
      extract_qr_ascii lines = first :: tail := by
  induction lines with
  | nil => left; rfl
  | cons line rest ih =>
    by_cases hm : isMarkerLine line = true
    · right
      refine ⟨line, extractGo rest true true [], hm, extractGo_tt_chainGood rest, ?_⟩
      show extractGo (line :: rest) false false [] = _
      rw [extractGo_start line rest [] hm, extractGo_tt_append rest ([] ++ [line])]
      simp
    · replace hm : isMarkerLine line = false := by simpa using hm
      have h2 : extract_qr_ascii (line :: rest) = extract_qr_ascii rest :=
        extractGo_out_skip line rest [] hm
      rw [h2]
      exact ih

/-- Lines before the first marker are skipped wholesale. -/
theorem extract_drops_nonmarkers (pre : List (List Char)) :
    ∀ ls acc, (∀ l ∈ pre, isMarkerLine l = false) →
      extractGo (pre ++ ls) false false acc = extractGo ls false false acc := by
  induction pre with
  | nil => intro ls acc _; rfl
  | cons p ps ih =>
    intro ls acc h
    have hp : isMarkerLine p = false := h p (by simp)
    rw [List.cons_append, extractGo_out_skip p (ps ++ ls) acc hp]
    exact ih ls acc (fun l hl => h l (by simp [hl]))

/-- If no input line is a marker line, nothing is ever collected. -/
theorem extract_no_marker (lines : List (List Char))
    (h : ∀ l ∈ lines, isMarkerLine l = false) :
    extract_qr_ascii lines = [] := by
  have h2 := extract_drops_nonmarkers lines [] [] h
  rw [List.append_nil] at h2
  exact h2

/-- Unfolding `maxWidth` on a cons cell. -/
theorem maxWidth_cons (l : List Char) (ls : List (List Char)) :
    maxWidth (l :: ls) = Nat.max l.length (maxWidth ls) := rfl

/-- Every line is at most `maxWidth` long. -/
theorem length_le_maxWidth (ls : List (List Char)) (l : List Char) (h : l ∈ ls) :
    l.length ≤ maxWidth ls := by
  induction ls with
  | nil => cases h
  | cons x xs ih =>
    rw [maxWidth_cons]
    rcases List.mem_cons.mp h with h | h
    · subst h; exact Nat.le_max_left _ _
    · exact Nat.le_trans (ih h) (Nat.le_max_right _ _)

/-- Indexing with `getD` at a valid index yields a member of the list. -/
theorem getD_mem {α : Type} (d : α) (ls : List α) :
    ∀ y, y < ls.length → ls.getD y d ∈ ls := by
  induction ls with
  | nil => intro y hy; simp at hy
  | cons x xs ih =>
    intro y hy
    cases y with
    | zero => rw [List.getD_cons_zero]; exact List.mem_cons_self _ _
    | succ n =>
      rw [List.getD_cons_succ]
      exact List.mem_cons_of_mem _ (ih n (by simpa using hy))

example : extract_qr_ascii [markerChars, ['█', ' ']] = [markerChars, ['█', ' ']] := by decide

example : extract_qr_ascii [['h', 'i'], markerChars, ['█', ' '], []] =
    [markerChars, ['█', ' ']] := by decide

example : extract_qr_ascii (markerChars :: [['x', 'y'], ['█', ' ']]) =
    [markerChars, ['█', ' ']] := by decide

example : extract_qr_ascii (markerChars :: [markerChars, ['█', ' ']] ++ [markerChars]) =
    [markerChars, markerChars] := by decide

/-- C1: the character-to-pixel mapping of `ascii_qr_to_image` is total and
maps the full block to (black, black), the upper-half block to
(black, white), the lower-half block to (white, black), and a space or any
other character to (white, white); every character maps to exactly one
(top, bottom) pair. -/
theorem C1_char_mapping :
    charPixels '█' = (true, true) ∧
    charPixels '▀' = (true, false) ∧
    charPixels '▄' = (false, true) ∧
    charPixels ' ' = (false, false) ∧
    (∀ c : Char, c ≠ '█' → c ≠ '▀' → c ≠ '▄' → charPixels c = (false, false)) ∧
    (∀ c : Char, ∃! p : Bool × Bool, charPixels c = p) := by
  refine ⟨by decide, by decide, by decide, by decide, ?_, ?_⟩
  · intro c h1 h2 h3
    simp [charPixels, h1, h2, h3]
  · intro c
    exact ⟨charPixels c, rfl, fun p hp => hp.symm⟩

/-- Witness for C1 at the concrete character `Q`. -/
theorem C1_char_mapping_witness : charPixels 'Q' = (false, false) :=
  C1_char_mapping.2.2.2.2.1 'Q' (by decide) (by decide) (by decide)

/-- C3 fails on the code: while inside the block, the source appends a line
when `line.strip()` is truthy and the line contains at least one of the
four QR characters (`any`, not `all`); the line `"a "` contains the
non-alphabet character `a` and is still appended. -/
theorem C3_counterexample :
    qrAlphabet 'a' = false ∧
    extract_qr_ascii [markerChars, ['a', ' ']] = [markerChars, ['a', ' ']] := by decide

/-- C3 amended: while inside the block, a non-marker line is appended (and
scanning continues) if and only if it has a non-whitespace character and
contains at least one QR-alphabet character. -/
theorem C3_amended_append_condition (line : List Char) (rest acc : List (List Char))
    (hm : isMarkerLine line = false) :
    extractGo (line :: rest) true true acc = extractGo rest true true (acc ++ [line]) ↔
      (hasNonWS line = true ∧ containsQrChar line = true) := by
  constructor
  · intro heq
    by_cases hw : hasNonWS line = true
    · refine ⟨hw, ?_⟩
      cases hcc : containsQrChar line
      · rw [extractGo_in_skip line rest acc hm hw hcc] at heq
        rw [extractGo_tt_append rest acc, extractGo_tt_append rest (acc ++ [line])] at heq
        have hlen := congrArg List.length heq
        simp only [List.length_append, List.length_cons] at hlen
        omega
      · rfl
    · replace hw : hasNonWS line = false := by simpa using hw
      rw [extractGo_in_blank line rest acc hw] at heq
      rw [extractGo_tt_append rest (acc ++ [line])] at heq
      have hlen := congrArg List.length heq
      simp only [List.length_append, List.length_cons] at hlen
      omega
  · rintro ⟨hw, hc⟩
    exact extractGo_in_append line rest acc hm (by simp [hw, hc])

/-- Witness for the amended C3: the line `"█ "` is appended. -/
theorem C3_amended_witness :
    extractGo [['█', ' ']] true true [] = extractGo [] true true ([] ++ [['█', ' ']]) :=
  (C3_amended_append_condition ['█', ' '] [] [] (by decide)).mpr ⟨by decide, by decide⟩

/-- C4 fails on the code: a mid-block line made of characters outside the
QR-alphabet (here `"xy"`) does not stop extraction — it is skipped, and the
later line `"█ "` is still appended. -/
theorem C4_counterexample :
    qrAlphabet 'x' = false ∧ qrAlphabet 'y' = false ∧
    extract_qr_ascii [markerChars, ['x', 'y'], ['█', ' ']] = [markerChars, ['█', ' ']] := by
  decide

/-- C4 amended: once inside the block, extraction terminates exactly upon
(a) a second border-marker line, which is appended as the final line, or
(b) a blank/whitespace-only line; a non-blank line containing no
QR-alphabet character is skipped and scanning continues. -/
theorem C4_amended_termination (line : List Char) (rest acc : List (List Char)) :
    (isMarkerLine line = true → extractGo (line :: rest) true true acc = acc ++ [line]) ∧
    (hasNonWS line = false → extractGo (line :: rest) true true acc = acc) ∧
    (isMarkerLine line = false → hasNonWS line = true → containsQrChar line = false →
      extractGo (line :: rest) true true acc = extractGo rest true true acc) :=
  ⟨fun hm => extractGo_in_marker line rest acc hm,
   fun hw => extractGo_in_blank line rest acc hw,
   fun hm hw hc => extractGo_in_skip line rest acc hm hw hc⟩

/-- Witness for the amended C4: a second marker line ends the block and is
kept as its last line, whatever follows it. -/
theorem C4_amended_witness :
    extractGo (markerChars :: [['a']]) true true [] = [] ++ [markerChars] :=
  (C4_amended_termination markerChars [['a']] []).1 (by decide)

/-- C5 fails on the code: the extracted block already starts with a marker
line, so re-wrapping it in fresh markers makes the second line a "bottom
border" and extraction of the re-wrapped text truncates to two marker
lines instead of returning the block. -/
theorem C5_counterexample :
    extract_qr_ascii [markerChars, ['█', ' ']] = [markerChars, ['█', ' ']] ∧
    extract_qr_ascii (markerChars :: ([markerChars, ['█', ' ']] ++ [markerChars])) =
      [markerChars, markerChars] ∧
    ([markerChars, markerChars] : List (List Char)) ≠ [markerChars, ['█', ' ']] := by
  decide

/-- C5 amended: extraction is idempotent on the block itself — re-running
extraction directly on the extracted non-empty block (without adding fresh
border markers) returns exactly the same block. -/
theorem C5_amended_idempotent (lines : List (List Char))
    (h : extract_qr_ascii lines ≠ []) :
    extract_qr_ascii (extract_qr_ascii lines) = extract_qr_ascii lines := by
  rcases extract_shape lines with h0 | ⟨first, tail, hm, hcg, heq⟩
  · exact absurd h0 h
  · rw [heq]
    show extractGo (first :: tail) false false [] = first :: tail
    rw [extractGo_start first tail [] hm, chainGood_replay tail ([] ++ [first]) hcg]
    simp

/-- Witness for the amended C5 on a concrete two-line block. -/
theorem C5_amended_witness :
    extract_qr_ascii (extract_qr_ascii [markerChars, ['█', ' ']]) =
      extract_qr_ascii [markerChars, ['█', ' ']] :=
  C5_amended_idempotent [markerChars, ['█', ' ']] (by decide)

/-- C10: a non-empty extracted block starts with the first border-marker
line of the input itself, and a second marker line met inside the block is
appended as the block's last line (the loop breaks right after it). -/
theorem C10_border_inclusion (pre : List (List Char)) (first : List Char)
    (rest : List (List Char))
    (hpre : ∀ l ∈ pre, isMarkerLine l = false) (hfirst : isMarkerLine first = true) :
    (extract_qr_ascii (pre ++ first :: rest)).headD [] = first ∧
    (∀ line rest2 acc, isMarkerLine line = true →
      extractGo (line :: rest2) true true acc = acc ++ [line]) := by
  constructor
  · show (extractGo (pre ++ first :: rest) false false []).headD [] = first
    rw [extract_drops_nonmarkers pre (first :: rest) [] hpre,
      extractGo_start first rest [] hfirst,
      extractGo_tt_append rest ([] ++ [first])]
    simp
  · intro line rest2 acc hm
    exact extractGo_in_marker line rest2 acc hm

/-- Witness for C10 with one prose line before the marker. -/
theorem C10_border_inclusion_witness :
    (extract_qr_ascii ([['h', 'i']] ++ markerChars :: [['█', ' ']])).headD [] = markerChars ∧
    (∀ line rest2 acc, isMarkerLine line = true →
      extractGo (line :: rest2) true true acc = acc ++ [line]) :=
  C10_border_inclusion [['h', 'i']] markerChars [['█', ' ']] (by decide) (by decide)

/-- C2: for every non-empty block the image exists and its content region
(inside the quiet zone) is `2 × (number of lines)` module rows high and
`maxWidth` module columns wide; a single-line block gives 2 module rows. -/
theorem C2_matrix_dimensions (qr_lines : List (List Char)) (h : qr_lines ≠ []) :
    ∃ img, ascii_qr_to_image qr_lines = some img ∧
      img.height = qr_lines.length * 2 * module_size + 2 * quiet_zone ∧
      img.width = maxWidth qr_lines * module_size + 2 * quiet_zone ∧
      (img.height - 2 * quiet_zone) / module_size = 2 * qr_lines.length ∧
      (img.width - 2 * quiet_zone) / module_size = maxWidth qr_lines ∧
      (qr_lines.length = 1 → (img.height - 2 * quiet_zone) / module_size = 2) := by
  have hne : qr_lines.isEmpty = false := by
    cases qr_lines with
    | nil => exact absurd rfl h
    | cons a as => rfl
  have himg : ascii_qr_to_image qr_lines =
      some ⟨maxWidth qr_lines * module_size + 2 * quiet_zone,
            qr_lines.length * 2 * module_size + 2 * quiet_zone,
            fun px py => ascii_black qr_lines px py⟩ := by
    simp [ascii_qr_to_image, hne]
  refine ⟨_, himg, rfl, rfl, ?_, ?_, ?_⟩
  · dsimp only
    simp only [quiet_zone, module_size]
    omega
  · dsimp only
    simp only [quiet_zone, module_size]
    omega
  · intro h1
    dsimp only
    simp only [quiet_zone, module_size, h1]

/-- Witness for C2 on the one-line block `["█"]`. -/
theorem C2_matrix_dimensions_witness :
    ∃ img, ascii_qr_to_image [['█']] = some img ∧
      img.height = [['█']].length * 2 * module_size + 2 * quiet_zone ∧
      img.width = maxWidth [['█']] * module_size + 2 * quiet_zone ∧
      (img.height - 2 * quiet_zone) / module_size = 2 * [['█']].length ∧
      (img.width - 2 * quiet_zone) / module_size = maxWidth [['█']] ∧
      ([['█']].length = 1 → (img.height - 2 * quiet_zone) / module_size = 2) :=
  C2_matrix_dimensions [['█']] (by decide)

/-- C7: the quiet zone is 4 modules wide and no black pixel is painted in
it — every pixel outside the content rectangle is white. -/
theorem C7_quiet_zone_white (qr_lines : List (List Char)) (h : qr_lines ≠ []) (px py : Nat)
    (hmargin : px < quiet_zone ∨ py < quiet_zone ∨
      quiet_zone + maxWidth qr_lines * module_size ≤ px ∨
      quiet_zone + qr_lines.length * 2 * module_size ≤ py) :
    quiet_zone = 4 * module_size ∧ ascii_black qr_lines px py = false := by
  refine ⟨rfl, ?_⟩
  rw [← Bool.not_eq_true]
  intro hb
  simp only [ascii_black, List.any_eq_true, List.mem_range, Bool.or_eq_true, Bool.and_eq_true,
    decide_eq_true_eq] at hb
  obtain ⟨y, hy, x, hx, hcond⟩ := hb
  have hlen := length_le_maxWidth qr_lines _ (getD_mem [] qr_lines y hy)
  simp only [quiet_zone, module_size] at hmargin
  rcases hcond with ⟨_, hb1, hb2, hb3, hb4⟩ | ⟨_, hb1, hb2, hb3, hb4⟩ <;>
    simp only [quiet_zone, module_size] at hb1 hb2 hb3 hb4 <;> omega

/-- Witness for C7: the top-left corner pixel of the image of `["█"]`. -/
theorem C7_quiet_zone_white_witness :
    quiet_zone = 4 * module_size ∧ ascii_black [['█']] 0 0 = false :=
  C7_quiet_zone_white [['█']] (by decide) 0 0 (Or.inl (by decide))

/-- C9: within the two pixel rows of line `y`, every pixel column past the
line's own length is white — short lines act as if padded with spaces. -/
theorem C9_short_line_padding (qr_lines : List (List Char)) (y px py : Nat)
    (hpx : quiet_zone + (qr_lines.getD y []).length * module_size ≤ px)
    (hpy1 : quiet_zone + y * 2 * module_size ≤ py)
    (hpy2 : py < quiet_zone + (y + 1) * 2 * module_size) :
    ascii_black qr_lines px py = false := by
  rw [← Bool.not_eq_true]
  intro hb
  simp only [ascii_black, List.any_eq_true, List.mem_range, Bool.or_eq_true, Bool.and_eq_true,
    decide_eq_true_eq] at hb
  obtain ⟨y2, hy2, x, hx, hcond⟩ := hb
  simp only [quiet_zone, module_size] at hpx hpy1 hpy2
  by_cases hyy : y2 = y
  · subst hyy
    rcases hcond with ⟨_, hb1, hb2, hb3, hb4⟩ | ⟨_, hb1, hb2, hb3, hb4⟩ <;>
      simp only [quiet_zone, module_size] at hb1 hb2 hb3 hb4 <;> omega
  · rcases hcond with ⟨_, hb1, hb2, hb3, hb4⟩ | ⟨_, hb1, hb2, hb3, hb4⟩ <;>
      simp only [quiet_zone, module_size] at hb1 hb2 hb3 hb4 <;> omega

/-- Witness for C9: block `["█", ""]`, row band of the empty second line,
first content column. -/
theorem C9_short_line_padding_witness :
    ascii_black [['█'], []] 16 24 = false :=
  C9_short_line_padding [['█'], []] 1 16 24 (by decide) (by decide) (by decide)

/-- C6: if no input line starts with ten `▄` characters, extraction returns
the empty block and `main` exits with code 1 printing the "No QR code
found in input" diagnostic (which contains "No QR code found") to stderr,
whatever the external decoder would have returned. -/
theorem C6_no_marker_fails (lines : List (List Char)) (d : Option String)
    (h : ∀ l ∈ lines, isMarkerLine l = false) :
    extract_qr_ascii lines = [] ∧
    main lines d = ⟨1, [], ["No QR code found in input"]⟩ ∧
    beginsWith ("No QR code found".toList) ("No QR code found in input".toList) = true := by
  have he := extract_no_marker lines h
  refine ⟨he, ?_, by decide⟩
  simp [main, he]

/-- Witness for C6 on a marker-free input. -/
theorem C6_no_marker_fails_witness :
    extract_qr_ascii [['h', 'i']] = [] ∧
    main [['h', 'i']] none = ⟨1, [], ["No QR code found in input"]⟩ ∧
    beginsWith ("No QR code found".toList) ("No QR code found in input".toList) = true :=
  C6_no_marker_fails [['h', 'i']] none (by decide)

/-- C8: on every failing run (empty extraction, image conversion returning
nothing, or the decoder finding no payload) `main` writes nothing to
stdout, exits with code 1, and its stderr ends with a message naming the
failed stage. -/
theorem C8_failure_diagnostics (lines : List (List Char)) (d : Option String)
    (hfail : extract_qr_ascii lines = [] ∨
      ascii_qr_to_image (extract_qr_ascii lines) = none ∨ d = none) :
    (main lines d).exitCode = 1 ∧ (main lines d).stdout = [] ∧
    (main lines d).stderr ≠ [] ∧
    ("No QR code found in input" ∈ (main lines d).stderr ∨
     "Failed to convert QR to image" ∈ (main lines d).stderr ∨
     "Failed to decode QR code" ∈ (main lines d).stderr) := by
  by_cases he : (extract_qr_ascii lines).isEmpty = true
  · simp [main, he]
  · replace he : (extract_qr_ascii lines).isEmpty = false := by simpa using he
    cases himg : ascii_qr_to_image (extract_qr_ascii lines) with
    | none => simp [main, he, himg]
    | some i =>
      cases d with
      | none => simp [main, he, himg]
      | some url =>
        exfalso
        rcases hfail with h1 | h1 | h1
        · rw [h1] at he; exact absurd he (by decide)
        · rw [h1] at himg; exact Option.noConfusion himg
        · exact Option.noConfusion h1

/-- Witness for C8: empty input, decoder unavailable. -/
theorem C8_failure_diagnostics_witness :
    (main [] none).exitCode = 1 ∧ (main [] none).stdout = [] ∧
    (main [] none).stderr ≠ [] ∧
    ("No QR code found in input" ∈ (main [] none).stderr ∨
     "Failed to convert QR to image" ∈ (main [] none).stderr ∨
     "Failed to decode QR code" ∈ (main [] none).stderr) :=
  C8_failure_diagnostics [] none (Or.inl (by decide))

end DecodeAsciiQr
